import Mathlib

/-!
Verification of the Conway Game of Life engine (Rust sources in src/):
a shallow embedding of grid.rs, game.rs and patterns.rs, followed by
theorems about the embedded definitions.

Rust i32 values are modelled as Int; the Rust remainder operator on i32
is truncating, which is Int.tmod.
-/

namespace Gol

/-- A cell coordinate in the grid (Position(pub i32, pub i32) in grid.rs). -/
abbrev Position := Int × Int

/-- The 8 neighboring cell offsets, NEIGHBOR_OFFSETS in grid.rs, in source order. -/
def NEIGHBOR_OFFSETS : List (Int × Int) :=
  [(-1, -1), (0, -1), (1, -1),
   (-1,  0),          (1,  0),
   (-1,  1), (0,  1), (1,  1)]

/-- Grid properties (struct Grid in grid.rs): width and height in cells and
the wrap flag. -/
structure Grid where
  width : Int
  height : Int
  wrap_world : Bool
  deriving Repr, DecidableEq

/-- Grid::in_bounds: (0..width).contains(&x) && (0..height).contains(&y). -/
def Grid.in_bounds (g : Grid) (x y : Int) : Bool :=
  (decide (0 ≤ x) && decide (x < g.width)) && (decide (0 ≤ y) && decide (y < g.height))

/-- Grid::wrap: truncating remainder by width/height (Rust %), then the
modulus is added when the remainder is negative. -/
def Grid.wrap (g : Grid) (x y : Int) : Position :=
  let nx := x.tmod g.width
  let ny := y.tmod g.height
  let nx := if nx < 0 then nx + g.width else nx
  let ny := if ny < 0 then ny + g.height else ny
  (nx, ny)

/-- The admitted neighbor candidate in Grid::next_generation for a live cell
and one offset: the wrapped sum under wrap_world, otherwise the raw sum if it
passes the bounds check, and nothing when the candidate is discarded. -/
def Grid.step (g : Grid) (c : Position) (o : Int × Int) : Option Position :=
  let p := if g.wrap_world then g.wrap (c.1 + o.1) (c.2 + o.2)
           else (c.1 + o.1, c.2 + o.2)
  if g.wrap_world || g.in_bounds p.1 p.2 then some p else none

/-- How many of the 8 offsets applied to live cell c land (admitted) on p:
the contribution of c to the counts entry of p. -/
def contrib (g : Grid) (c p : Position) : Nat :=
  (NEIGHBOR_OFFSETS.filter (fun o => g.step c o = some p)).length

/-- The total neighbor count recorded for p by the first loop of
Grid::next_generation: contributions summed over all live cells. -/
def neighborCount (g : Grid) (live : Finset Position) (p : Position) : Nat :=
  ∑ c ∈ live, contrib g c p

/-- The set of coordinates that receive a counts entry: every admitted
neighbor candidate of every live cell. -/
def candidates (g : Grid) (live : Finset Position) : Finset Position :=
  live.biUnion (fun c => (NEIGHBOR_OFFSETS.filterMap (g.step c)).toFinset)

/-- Grid::next_generation: among the counted coordinates, keep those with
count 3, or count 2 when already live. -/
def Grid.next_generation (g : Grid) (live : Finset Position) : Finset Position :=
  (candidates g live).filter
    (fun p => neighborCount g live p = 3 ∨ (p ∈ live ∧ neighborCount g live p = 2))

/-- GameOfLife::add_cell acting on the live set: wrap or keep the raw
coordinate, then insert when admitted. -/
def add_cell (g : Grid) (x y : Int) (live : Finset Position) : Finset Position :=
  let p := if g.wrap_world then g.wrap x y else (x, y)
  if g.wrap_world || g.in_bounds p.1 p.2 then insert p live else live

/-- GameOfLife::toggle_cell acting on the live set: no-op when not admitted,
otherwise remove the admitted coordinate if present, else insert it. -/
def toggle_cell (g : Grid) (x y : Int) (live : Finset Position) : Finset Position :=
  let p := if g.wrap_world then g.wrap x y else (x, y)
  if !(g.wrap_world || g.in_bounds p.1 p.2) then live
  else if p ∈ live then live.erase p else insert p live

/-- Pattern::add_cell_to_pattern from patterns.rs: its own inline wrapping
code, and a bounds check performed on the raw input coordinate. -/
def add_cell_to_pattern (grid_width grid_height : Int) (wrap_world : Bool)
    (x y : Int) (cells : Finset Position) : Finset Position :=
  let p := if wrap_world then
      let nx := x.tmod grid_width
      let ny := y.tmod grid_height
      let nx := if nx < 0 then nx + grid_width else nx
      let ny := if ny < 0 then ny + grid_height else ny
      ((nx, ny) : Position)
    else (x, y)
  if wrap_world ||
      ((decide (0 ≤ x) && decide (x < grid_width)) &&
        (decide (0 ≤ y) && decide (y < grid_height))) then
    insert p cells
  else cells

/-- A pattern apply loop: fold add_cell_to_pattern over the pattern offsets,
anchored at (x, y). -/
def stampList (offs : List (Int × Int)) (grid_width grid_height : Int)
    (wrap_world : Bool) (x y : Int) (cells : Finset Position) : Finset Position :=
  offs.foldl (fun acc o => add_cell_to_pattern grid_width grid_height wrap_world
    (x + o.1) (y + o.2) acc) cells

/-- The offsets of BlockPattern::apply, in loop order (dx outer, dy inner). -/
def block_offsets : List (Int × Int) := [(0, 0), (0, 1), (1, 0), (1, 1)]

/-- The offsets of GliderPattern::apply. -/
def glider_offsets : List (Int × Int) := [(1, 0), (2, 1), (0, 2), (1, 2), (2, 2)]

/-- The admission gate shared by manual insertion and stamping: under wrap
the wrapped coordinate (always admitted), otherwise the raw coordinate when
it passes the bounds check. -/
def gate (grid_width grid_height : Int) (wrap_world : Bool) (x y : Int) :
    Option Position :=
  if wrap_world then some ((⟨grid_width, grid_height, wrap_world⟩ : Grid).wrap x y)
  else if (⟨grid_width, grid_height, wrap_world⟩ : Grid).in_bounds x y then
    some (x, y)
  else none

/-- The LiveSet invariant: every member lies in [0,width) x [0,height). -/
def InBounds (g : Grid) (live : Finset Position) : Prop :=
  ∀ p ∈ live, 0 ≤ p.1 ∧ p.1 < g.width ∧ 0 ≤ p.2 ∧ p.2 < g.height

/-- Color themes from themes.rs. -/
inductive ColorTheme where
  | classic
  | dark
  | pastel
  | neon
  deriving DecidableEq, Repr

/-- Core game state (struct GameOfLife in game.rs); rendering-only data is
kept as the fields the state carries (cell size, grid toggle, theme). -/
structure GameOfLife where
  live : Finset Position
  grid : Grid
  cell : Int
  generation : Nat
  show_grid : Bool
  theme : ColorTheme

/-- GameOfLife::add_cell. -/
def GameOfLife.add_cell (s : GameOfLife) (x y : Int) : GameOfLife :=
  { s with live := Gol.add_cell s.grid x y s.live }

/-- GameOfLife::toggle_cell. -/
def GameOfLife.toggle_cell (s : GameOfLife) (x y : Int) : GameOfLife :=
  { s with live := Gol.toggle_cell s.grid x y s.live }

/-- GameOfLife::clear: empty the live set and reset the generation count. -/
def GameOfLife.clear (s : GameOfLife) : GameOfLife :=
  { s with live := ∅, generation := 0 }

/-- GameOfLife::next_generation: replace the live set by the grid transition
and increment the generation counter. -/
def GameOfLife.next_generation (s : GameOfLife) : GameOfLife :=
  { s with live := s.grid.next_generation s.live,
           generation := s.generation + 1 }

/-- GameOfLife::apply_pattern for a pattern given by its fixed offset list:
hand the live set, grid dimensions and wrap flag to the pattern loop. -/
def GameOfLife.apply_pattern (s : GameOfLife) (offs : List (Int × Int))
    (x y : Int) : GameOfLife :=
  { s with live :=
      stampList offs s.grid.width s.grid.height s.grid.wrap_world x y s.live }

/-- GameOfLife::cycle_theme. -/
def GameOfLife.cycle_theme (s : GameOfLife) : GameOfLife :=
  { s with theme :=
      match s.theme with
      | ColorTheme.classic => ColorTheme.dark
      | ColorTheme.dark => ColorTheme.pastel
      | ColorTheme.pastel => ColorTheme.neon
      | ColorTheme.neon => ColorTheme.classic }

/-- The integers 0, 1, ..., n-1 (the Rust range 0..n on i32 values). -/
def intRange (n : Int) : List Int :=
  (List.range n.toNat).map (fun i => (i : Int))

/-- GameOfLife::random_fill with the random draws supplied as an oracle d:
d x y answers whether gen_range(0.0, 1.0) < density at that loop step. -/
def GameOfLife.random_fill (s : GameOfLife) (d : Int → Int → Bool) : GameOfLife :=
  (intRange s.grid.height).foldl
    (fun s1 y => (intRange s1.grid.width).foldl
      (fun s2 x => if d x y then s2.add_cell x y else s2) s1) s

/-- The ten selectable patterns of patterns.rs, in registry order. -/
inductive PatternKind where
  | glider
  | random
  | block
  | blinker
  | beacon
  | rPentomino
  | acorn
  | diehard
  | gosperGun
  | pentadecathlon
  deriving DecidableEq, Repr

/-- get_pattern_by_index from patterns.rs: indices 0 through 9 select the
registry entries, anything else falls back to the glider. -/
def get_pattern_by_index (index : Nat) : PatternKind :=
  match index with
  | 0 => PatternKind.glider
  | 1 => PatternKind.random
  | 2 => PatternKind.block
  | 3 => PatternKind.blinker
  | 4 => PatternKind.beacon
  | 5 => PatternKind.rPentomino
  | 6 => PatternKind.acorn
  | 7 => PatternKind.diehard
  | 8 => PatternKind.gosperGun
  | 9 => PatternKind.pentadecathlon
  | _ => PatternKind.glider

/-!
Iteration-order model: the first loop of Grid::next_generation walks the
HashSet in whatever order the hash map yields. The functions below take the
enumeration explicitly as a list, so that independence from that order can
be stated.
-/

/-- Neighbor count accumulated over an explicit enumeration of the live set. -/
def neighborCountL (g : Grid) (l : List Position) (p : Position) : Nat :=
  (l.map (fun c => contrib g c p)).sum

/-- Counted coordinates, accumulated over an explicit enumeration. -/
def candidatesL (g : Grid) (l : List Position) : Finset Position :=
  (l.flatMap (fun c => NEIGHBOR_OFFSETS.filterMap (g.step c))).toFinset

/-- Grid::next_generation computed from an explicit enumeration of the live
set. -/
def next_generationL (g : Grid) (l : List Position) : Finset Position :=
  (candidatesL g l).filter
    (fun p => neighborCountL g l p = 3 ∨ (p ∈ l ∧ neighborCountL g l p = 2))

/-!
Checked-arithmetic model: Rust i32 addition is a program error on overflow
(a panic in debug builds); the model below returns none where the code hits
that error, mirroring cell.x() + dx and cell.y() + dy in the counting loop
of Grid::next_generation.
-/

/-- Smallest i32 value. -/
def I32_MIN : Int := -2147483648

/-- Largest i32 value. -/
def I32_MAX : Int := 2147483647

/-- i32 addition with its overflow check. -/
def checked_add (a b : Int) : Option Int :=
  if I32_MIN ≤ a + b ∧ a + b ≤ I32_MAX then some (a + b) else none

/-- One neighbor candidate of the counting loop with the i32 additions
checked: none is the arithmetic error, some r the admitted candidate. -/
def Grid.step_checked (g : Grid) (c : Position) (o : Int × Int) :
    Option (Option Position) :=
  match checked_add c.1 o.1, checked_add c.2 o.2 with
  | some sx, some sy =>
      let p := if g.wrap_world then g.wrap sx sy else (sx, sy)
      some (if g.wrap_world || g.in_bounds p.1 p.2 then some p else none)
  | _, _ => none

/-- Grid::next_generation under checked i32 arithmetic: the whole transition
is the arithmetic error as soon as one live cell plus one offset overflows,
and otherwise the unchecked transition. -/
def next_generation_checked (g : Grid) (live : Finset Position) :
    Option (Finset Position) :=
  if ∀ c ∈ live, ∀ o ∈ NEIGHBOR_OFFSETS, (g.step_checked c o).isSome then
    some (g.next_generation live)
  else none

/-!
Pure-plane model: the transition with no boundary at all, used to analyse
the interior of the board where Grid::next_generation admits every neighbor
candidate unchanged.
-/

/-- A neighbor candidate on the unbounded plane: always admitted, raw sum. -/
def stepP (c : Position) (o : Int × Int) : Option Position :=
  some (c.1 + o.1, c.2 + o.2)

/-- Neighbor count on the unbounded plane. -/
def neighborCountP (live : Finset Position) (p : Position) : Nat :=
  ∑ c ∈ live, (NEIGHBOR_OFFSETS.filter (fun o => stepP c o = some p)).length

/-- Counted coordinates on the unbounded plane. -/
def candidatesP (live : Finset Position) : Finset Position :=
  live.biUnion (fun c => (NEIGHBOR_OFFSETS.filterMap (stepP c)).toFinset)

/-- The Conway transition on the unbounded plane. -/
def nextP (live : Finset Position) : Finset Position :=
  (candidatesP live).filter
    (fun p => neighborCountP live p = 3 ∨ (p ∈ live ∧ neighborCountP live p = 2))

/-- Shift a coordinate by a fixed translation. -/
def translate (t : Int × Int) (p : Position) : Position :=
  (p.1 + t.1, p.2 + t.2)

/-- For a positive modulus the truncating remainder is strictly above the
negated modulus. -/
lemma tmod_lower_bound (a : Int) {b : Int} (hb : 0 < b) : -b < a.tmod b := by
  rcases a with m | m
  · have h0 : 0 ≤ Int.tmod (Int.ofNat m) b := Int.tmod_nonneg b (Int.ofNat_nonneg m)
    omega
  · rcases b with n | n
    · have heq : Int.tmod (Int.negSucc m) (Int.ofNat n) = -(Int.ofNat ((m + 1) % n)) := rfl
      have hn : 0 < n := Int.ofNat_pos.mp hb
      have hlt := Nat.mod_lt (m + 1) hn
      rw [heq]
      exact Int.neg_lt_neg (Int.ofNat_lt.mpr hlt)
    · exact absurd hb (lt_asymm (Int.negSucc_lt_zero n))

/-- The first component of Grid.wrap, written out. -/
lemma wrap_fst (g : Grid) (x y : Int) :
    (g.wrap x y).1 =
      if x.tmod g.width < 0 then x.tmod g.width + g.width else x.tmod g.width := rfl

/-- The second component of Grid.wrap, written out. -/
lemma wrap_snd (g : Grid) (x y : Int) :
    (g.wrap x y).2 =
      if y.tmod g.height < 0 then y.tmod g.height + g.height else y.tmod g.height := rfl

/-- Bounds of Grid.wrap components: with positive width the x component of
the wrap lies in [0, width), and symmetrically for y. -/
lemma wrap_mem_range (g : Grid) (x y : Int) (hw : 0 < g.width) (hh : 0 < g.height) :
    0 ≤ (g.wrap x y).1 ∧ (g.wrap x y).1 < g.width ∧
    0 ≤ (g.wrap x y).2 ∧ (g.wrap x y).2 < g.height := by
  have hx1 := Int.tmod_lt_of_pos x hw
  have hx2 := tmod_lower_bound x hw
  have hy1 := Int.tmod_lt_of_pos y hh
  have hy2 := tmod_lower_bound y hh
  rw [wrap_fst, wrap_snd]
  split <;> split <;> omega

/-- Grid.wrap fixes coordinates that are already in bounds. -/
lemma wrap_eq_self_of_in_bounds (g : Grid) (x y : Int)
    (hx0 : 0 ≤ x) (hx1 : x < g.width) (hy0 : 0 ≤ y) (hy1 : y < g.height) :
    g.wrap x y = (x, y) := by
  have hx : x.tmod g.width = x := Int.tmod_eq_of_lt hx0 hx1
  have hy : y.tmod g.height = y := Int.tmod_eq_of_lt hy0 hy1
  have h1 : (g.wrap x y).1 = x := by rw [wrap_fst, hx]; split <;> omega
  have h2 : (g.wrap x y).2 = y := by rw [wrap_snd, hy]; split <;> omega
  exact Prod.ext h1 h2

/-- Membership in the candidate set is exactly a positive neighbor count. -/
lemma mem_candidates_iff (g : Grid) (live : Finset Position) (p : Position) :
    p ∈ candidates g live ↔ 0 < neighborCount g live p := by
  unfold candidates neighborCount contrib
  rw [Finset.mem_biUnion]
  constructor
  · rintro ⟨c, hc, hp⟩
    rw [List.mem_toFinset, List.mem_filterMap] at hp
    obtain ⟨o, ho, hstep⟩ := hp
    have hmem : o ∈ NEIGHBOR_OFFSETS.filter (fun o => g.step c o = some p) :=
      List.mem_filter.mpr ⟨ho, by simp [hstep]⟩
    have hpos : 0 < (NEIGHBOR_OFFSETS.filter (fun o => g.step c o = some p)).length :=
      List.length_pos.mpr (fun hnil => by simp [hnil] at hmem)
    exact Finset.sum_pos' (fun i _ => Nat.zero_le _) ⟨c, hc, hpos⟩
  · intro hpos
    obtain ⟨c, hc, hcpos⟩ : ∃ c ∈ live,
        0 < (NEIGHBOR_OFFSETS.filter (fun o => g.step c o = some p)).length := by
      by_contra hall
      push_neg at hall
      have hz : ∑ c ∈ live,
          (NEIGHBOR_OFFSETS.filter (fun o => g.step c o = some p)).length = 0 :=
        Finset.sum_eq_zero (fun c hc => Nat.le_zero.mp (hall c hc))
      omega
    refine ⟨c, hc, ?_⟩
    rw [List.mem_toFinset, List.mem_filterMap]
    obtain ⟨o, ho⟩ := List.exists_mem_of_length_pos hcpos
    have := List.mem_filter.mp ho
    exact ⟨o, this.1, by simpa using this.2⟩

/-- Membership in the next generation, unfolded: a positive recorded count
together with the Conway rule on that count. -/
lemma mem_next_generation_iff (g : Grid) (live : Finset Position) (p : Position) :
    p ∈ g.next_generation live ↔
      0 < neighborCount g live p ∧
        (neighborCount g live p = 3 ∨ (p ∈ live ∧ neighborCount g live p = 2)) := by
  unfold Grid.next_generation
  rw [Finset.mem_filter, mem_candidates_iff]

/-- The Boolean bounds check, read as propositions. -/
lemma in_bounds_iff (g : Grid) (x y : Int) :
    g.in_bounds x y = true ↔ 0 ≤ x ∧ x < g.width ∧ 0 ≤ y ∧ y < g.height := by
  simp [Grid.in_bounds, and_assoc]

/-- add_cell_to_pattern is the same admission-gated insertion as
GameOfLife::add_cell with the grid taken apart into its fields. -/
lemma add_cell_to_pattern_eq_add_cell (g : Grid) (x y : Int)
    (cells : Finset Position) :
    add_cell_to_pattern g.width g.height g.wrap_world x y cells =
      add_cell g x y cells := by
  cases hww : g.wrap_world <;>
    simp [add_cell_to_pattern, add_cell, Grid.wrap, Grid.in_bounds, hww]

/-- add_cell_to_pattern inserts exactly the admitted coordinate. -/
lemma mem_add_cell_to_pattern (grid_width grid_height : Int) (wrap_world : Bool)
    (x y : Int) (cells : Finset Position) (p : Position) :
    p ∈ add_cell_to_pattern grid_width grid_height wrap_world x y cells ↔
      gate grid_width grid_height wrap_world x y = some p ∨ p ∈ cells := by
  cases hww : wrap_world <;>
    simp only [add_cell_to_pattern, gate, Grid.wrap, Grid.in_bounds, hww,
      Bool.false_or, Bool.true_or, if_true, if_false, Bool.false_eq_true,
      reduceIte]
  · split
    · simp [Finset.mem_insert, eq_comm]
    · simp [eq_comm]
  · simp [Finset.mem_insert, eq_comm]

/-- Membership after a whole pattern stamp: the old cells plus each admitted
anchored offset. -/
lemma mem_stampList (offs : List (Int × Int)) (grid_width grid_height : Int)
    (wrap_world : Bool) (x y : Int) (cells : Finset Position) (p : Position) :
    p ∈ stampList offs grid_width grid_height wrap_world x y cells ↔
      p ∈ cells ∨
        ∃ o ∈ offs, gate grid_width grid_height wrap_world (x + o.1) (y + o.2)
          = some p := by
  induction offs generalizing cells with
  | nil => simp [stampList]
  | cons o os ih =>
    have hstep : stampList (o :: os) grid_width grid_height wrap_world x y cells
        = stampList os grid_width grid_height wrap_world x y
            (add_cell_to_pattern grid_width grid_height wrap_world
              (x + o.1) (y + o.2) cells) := rfl
    rw [hstep, ih, mem_add_cell_to_pattern]
    simp only [List.mem_cons]
    constructor
    · rintro ((h | h) | ⟨o2, ho2, h⟩)
      · exact Or.inr ⟨o, Or.inl rfl, h⟩
      · exact Or.inl h
      · exact Or.inr ⟨o2, Or.inr ho2, h⟩
    · rintro (h | ⟨o2, (rfl | ho2), h⟩)
      · exact Or.inl (Or.inr h)
      · exact Or.inl (Or.inl h)
      · exact Or.inr ⟨o2, ho2, h⟩

/-- Every admitted coordinate lies in bounds (positive dimensions). -/
lemma gate_in_bounds {grid_width grid_height : Int} {wrap_world : Bool}
    {x y : Int} {p : Position} (hw : 0 < grid_width) (hh : 0 < grid_height)
    (h : gate grid_width grid_height wrap_world x y = some p) :
    0 ≤ p.1 ∧ p.1 < grid_width ∧ 0 ≤ p.2 ∧ p.2 < grid_height := by
  unfold gate at h
  cases wrap_world with
  | true =>
    simp only [if_true, Option.some.injEq] at h
    subst h
    exact wrap_mem_range ⟨grid_width, grid_height, true⟩ x y hw hh
  | false =>
    simp only [Bool.false_eq_true, reduceIte] at h
    split at h
    · next hb =>
      obtain rfl : (x, y) = p := by simpa using h
      simpa using (in_bounds_iff ⟨grid_width, grid_height, false⟩ x y).mp hb
    · exact absurd h (by simp)

/-- A coordinate already in bounds is admitted unchanged, in both modes. -/
lemma gate_eq_some_self {grid_width grid_height : Int} {wrap_world : Bool}
    {a b : Int} (ha0 : 0 ≤ a) (ha1 : a < grid_width) (hb0 : 0 ≤ b)
    (hb1 : b < grid_height) :
    gate grid_width grid_height wrap_world a b = some (a, b) := by
  unfold gate
  cases wrap_world with
  | true =>
    simp only [if_true]
    rw [wrap_eq_self_of_in_bounds _ a b ha0 ha1 hb0 hb1]
  | false =>
    have hb : (⟨grid_width, grid_height, false⟩ : Grid).in_bounds a b = true :=
      (in_bounds_iff _ a b).mpr ⟨ha0, ha1, hb0, hb1⟩
    simp [hb]

/-- Grid::next_generation admits a neighbor candidate through the same gate
as insertion. -/
lemma step_eq_gate (g : Grid) (c : Position) (o : Int × Int) :
    g.step c o = gate g.width g.height g.wrap_world (c.1 + o.1) (c.2 + o.2) := by
  cases hww : g.wrap_world <;>
    simp [Grid.step, gate, Grid.wrap, Grid.in_bounds, hww]

/-- GameOfLife::add_cell inserts exactly the admitted coordinate. -/
lemma mem_add_cell (g : Grid) (x y : Int) (live : Finset Position) (p : Position) :
    p ∈ add_cell g x y live ↔
      gate g.width g.height g.wrap_world x y = some p ∨ p ∈ live := by
  rw [← add_cell_to_pattern_eq_add_cell, mem_add_cell_to_pattern]

lemma inBounds_add_cell (g : Grid) (x y : Int) (live : Finset Position)
    (hw : 0 < g.width) (hh : 0 < g.height) (hinv : InBounds g live) :
    InBounds g (add_cell g x y live) := by
  intro p hp
  rcases (mem_add_cell g x y live p).mp hp with h | h
  · exact gate_in_bounds hw hh h
  · exact hinv p h

lemma inBounds_toggle_cell (g : Grid) (x y : Int) (live : Finset Position)
    (hw : 0 < g.width) (hh : 0 < g.height) (hinv : InBounds g live) :
    InBounds g (toggle_cell g x y live) := by
  unfold toggle_cell
  cases hww : g.wrap_world with
  | true =>
    simp only [hww, Bool.true_or, Bool.not_true, Bool.false_eq_true, reduceIte]
    have hwrap := wrap_mem_range g x y hw hh
    split
    · exact fun p hp => hinv p (Finset.mem_of_mem_erase hp)
    · intro p hp
      rcases Finset.mem_insert.mp hp with rfl | hp2
      · exact hwrap
      · exact hinv p hp2
  | false =>
    simp only [hww, Bool.false_or, Bool.false_eq_true, reduceIte]
    split
    · exact hinv
    · next hb =>
      have hxy : g.in_bounds x y = true := by simpa using hb
      have hbd := (in_bounds_iff g x y).mp hxy
      split
      · exact fun p hp => hinv p (Finset.mem_of_mem_erase hp)
      · intro p hp
        rcases Finset.mem_insert.mp hp with rfl | hp2
        · simpa using hbd
        · exact hinv p hp2

lemma inBounds_stampList (offs : List (Int × Int)) (g : Grid) (x y : Int)
    (live : Finset Position) (hw : 0 < g.width) (hh : 0 < g.height)
    (hinv : InBounds g live) :
    InBounds g (stampList offs g.width g.height g.wrap_world x y live) := by
  intro p hp
  rcases (mem_stampList offs g.width g.height g.wrap_world x y live p).mp hp with
    h | ⟨o, _, h⟩
  · exact hinv p h
  · exact gate_in_bounds hw hh h

lemma inBounds_next_generation (g : Grid) (live : Finset Position)
    (hw : 0 < g.width) (hh : 0 < g.height) :
    InBounds g (g.next_generation live) := by
  intro p hp
  have hc : p ∈ candidates g live := Finset.mem_of_mem_filter p hp
  rw [candidates, Finset.mem_biUnion] at hc
  obtain ⟨c, _, hp2⟩ := hc
  rw [List.mem_toFinset, List.mem_filterMap] at hp2
  obtain ⟨o, _, hstep⟩ := hp2
  rw [step_eq_gate] at hstep
  exact gate_in_bounds hw hh hstep

/-- On a duplicate-free enumeration the list-driven computation agrees with
the set-level transition. -/
lemma next_generationL_eq (g : Grid) (l : List Position) (hnd : l.Nodup) :
    next_generationL g l = g.next_generation l.toFinset := by
  have hcount : ∀ p, neighborCountL g l p = neighborCount g l.toFinset p := by
    intro p
    rw [neighborCount, neighborCountL, List.sum_toFinset _ hnd]
  have hcand : candidatesL g l = candidates g l.toFinset := by
    ext p
    simp only [candidatesL, candidates, List.mem_toFinset, List.mem_flatMap,
      Finset.mem_biUnion]
  unfold next_generationL Grid.next_generation
  rw [hcand]
  apply Finset.filter_congr
  intro p _
  simp only [hcount, List.mem_toFinset]

/-- When no addition overflows, the checked candidate is the unchecked one. -/
lemma step_checked_eq (g : Grid) (c : Position) (o : Int × Int)
    (r : Option Position) (h : g.step_checked c o = some r) :
    g.step c o = r := by
  unfold Grid.step_checked at h
  cases hx : checked_add c.1 o.1 with
  | none =>
    rw [hx] at h
    cases hy : checked_add c.2 o.2 <;> rw [hy] at h <;> cases h
  | some sx =>
    cases hy : checked_add c.2 o.2 with
    | none => rw [hx, hy] at h; cases h
    | some sy =>
      rw [hx, hy] at h
      have hsx : sx = c.1 + o.1 := by
        unfold checked_add at hx; split at hx <;> simp_all
      have hsy : sy = c.2 + o.2 := by
        unfold checked_add at hy; split at hy <;> simp_all
      subst hsx hsy
      simp only [Option.some.injEq] at h
      subst h
      rfl

/-- When every live cell sits one full cell inside the border, the grid
transition is the unbounded-plane transition. -/
lemma next_generation_eq_nextP (g : Grid) (live : Finset Position)
    (hmargin : ∀ c ∈ live, 1 ≤ c.1 ∧ c.1 + 1 < g.width ∧
      1 ≤ c.2 ∧ c.2 + 1 < g.height) :
    g.next_generation live = nextP live := by
  have hstep : ∀ c ∈ live, ∀ o ∈ NEIGHBOR_OFFSETS, g.step c o = stepP c o := by
    intro c hc o ho
    obtain ⟨h1, h2, h3, h4⟩ := hmargin c hc
    rw [step_eq_gate, stepP]
    fin_cases ho <;>
      exact gate_eq_some_self (by omega) (by omega) (by omega) (by omega)
  have hcount : ∀ p, neighborCount g live p = neighborCountP live p := by
    intro p
    unfold neighborCount neighborCountP
    refine Finset.sum_congr rfl (fun c hc => ?_)
    unfold contrib
    exact congrArg List.length
      (List.filter_congr (fun o ho => by rw [hstep c hc o ho]))
  have hcand : candidates g live = candidatesP live := by
    unfold candidates candidatesP
    refine Finset.biUnion_congr rfl (fun c hc => ?_)
    rw [List.filterMap_congr (fun o ho => by rw [hstep c hc o ho])]
  unfold Grid.next_generation nextP
  rw [hcand]
  exact Finset.filter_congr (fun p _ => by rw [hcount])

lemma translate_injective (t : Int × Int) : Function.Injective (translate t) := by
  intro a b h
  simp only [translate, Prod.mk.injEq] at h
  have h1 : a.1 = b.1 := by omega
  have h2 : a.2 = b.2 := by omega
  exact Prod.ext h1 h2

lemma neighborCountP_translate (t : Int × Int) (live : Finset Position)
    (q : Position) :
    neighborCountP (live.image (translate t)) (translate t q) =
      neighborCountP live q := by
  unfold neighborCountP
  rw [Finset.sum_image (fun a _ b _ h => translate_injective t h)]
  refine Finset.sum_congr rfl (fun c _ => ?_)
  refine congrArg List.length (List.filter_congr (fun o _ => ?_))
  refine decide_eq_decide.mpr ?_
  simp only [stepP, translate, Option.some.injEq, Prod.mk.injEq, Prod.ext_iff]
  omega

lemma candidatesP_translate (t : Int × Int) (live : Finset Position) :
    candidatesP (live.image (translate t)) =
      (candidatesP live).image (translate t) := by
  ext p
  simp only [candidatesP, Finset.mem_biUnion, Finset.mem_image,
    List.mem_toFinset, List.mem_filterMap, stepP, Option.some.injEq]
  constructor
  · rintro ⟨c, ⟨c0, hc0, rfl⟩, o, ho, rfl⟩
    refine ⟨(c0.1 + o.1, c0.2 + o.2), ⟨c0, hc0, o, ho, rfl⟩, ?_⟩
    simp only [translate, Prod.mk.injEq]
    omega
  · rintro ⟨q, ⟨c0, hc0, o, ho, rfl⟩, rfl⟩
    refine ⟨translate t c0, ⟨c0, hc0, rfl⟩, o, ho, ?_⟩
    simp only [translate, Prod.mk.injEq]
    omega

/-- The unbounded-plane transition commutes with translations. -/
lemma nextP_translate (t : Int × Int) (live : Finset Position) :
    nextP (live.image (translate t)) = (nextP live).image (translate t) := by
  ext q
  constructor
  · intro hq
    rw [nextP, Finset.mem_filter, candidatesP_translate, Finset.mem_image] at hq
    obtain ⟨⟨p, hp, rfl⟩, hrule⟩ := hq
    rw [neighborCountP_translate,
      (translate_injective t).mem_finset_image] at hrule
    have hmem : p ∈ nextP live := by
      rw [nextP, Finset.mem_filter]; exact ⟨hp, hrule⟩
    exact Finset.mem_image_of_mem _ hmem
  · intro hq
    obtain ⟨p, hp, rfl⟩ := Finset.mem_image.mp hq
    rw [nextP, Finset.mem_filter] at hp
    obtain ⟨hp1, hp2⟩ := hp
    rw [nextP, Finset.mem_filter, candidatesP_translate]
    refine ⟨Finset.mem_image_of_mem _ hp1, ?_⟩
    rw [neighborCountP_translate, (translate_injective t).mem_finset_image]
    exact hp2

/-- Stamping the 2x2 block with an interior anchor produces exactly its four
cells. -/
lemma stamp_block_eq (g : Grid) (x y : Int) (hx1 : 1 ≤ x) (hx2 : x + 2 < g.width)
    (hy1 : 1 ≤ y) (hy2 : y + 2 < g.height) :
    stampList block_offsets g.width g.height g.wrap_world x y ∅ =
      ({(x, y), (x + 1, y), (x, y + 1), (x + 1, y + 1)} : Finset Position) := by
  ext p
  rw [mem_stampList]
  simp only [Finset.not_mem_empty, false_or]
  constructor
  · rintro ⟨o, ho, hadm⟩
    fin_cases ho <;>
      (norm_num at hadm
       rw [gate_eq_some_self (by omega) (by omega) (by omega) (by omega)] at hadm
       simp only [Option.some.injEq] at hadm
       subst hadm
       simp [Finset.mem_insert, Finset.mem_singleton])
  · intro hp
    simp only [Finset.mem_insert, Finset.mem_singleton] at hp
    rcases hp with rfl | rfl | rfl | rfl
    · refine ⟨(0, 0), by simp [block_offsets], ?_⟩
      show gate g.width g.height g.wrap_world (x + 0) (y + 0) = some (x, y)
      rw [gate_eq_some_self (by omega) (by omega) (by omega) (by omega)]
      norm_num
    · refine ⟨(1, 0), by simp [block_offsets], ?_⟩
      show gate g.width g.height g.wrap_world (x + 1) (y + 0) = some (x + 1, y)
      rw [gate_eq_some_self (by omega) (by omega) (by omega) (by omega)]
      norm_num
    · refine ⟨(0, 1), by simp [block_offsets], ?_⟩
      show gate g.width g.height g.wrap_world (x + 0) (y + 1) = some (x, y + 1)
      rw [gate_eq_some_self (by omega) (by omega) (by omega) (by omega)]
      norm_num
    · refine ⟨(1, 1), by simp [block_offsets], ?_⟩
      show gate g.width g.height g.wrap_world (x + 1) (y + 1) =
        some (x + 1, y + 1)
      exact gate_eq_some_self (by omega) (by omega) (by omega) (by omega)

/-- Replacing the wrap flag leaves the bounds check unchanged. -/
lemma in_bounds_same (g : Grid) (b : Bool) (a c : Int) :
    (⟨g.width, g.height, b⟩ : Grid).in_bounds a c = g.in_bounds a c := rfl

/-- Replacing the wrap flag leaves the wrap function unchanged. -/
lemma wrap_same (g : Grid) (b : Bool) (a c : Int) :
    (⟨g.width, g.height, b⟩ : Grid).wrap a c = g.wrap a c := rfl

/-- The admission gate under wrap mode. -/
lemma gate_true (grid_width grid_height a b : Int) :
    gate grid_width grid_height true a b =
      some ((⟨grid_width, grid_height, true⟩ : Grid).wrap a b) := rfl

/-- The admission gate without wrap mode. -/
lemma gate_false (grid_width grid_height a b : Int) :
    gate grid_width grid_height false a b =
      if (⟨grid_width, grid_height, false⟩ : Grid).in_bounds a b = true then
        some (a, b)
      else none := rfl

/-!
The claim theorems.
-/

/-- C1: for every LiveSet and every Topology with positive width and height,
advance contains a coordinate p iff p received a positive neighbor count via
the 8 admitted offsets from live cells and either that count is exactly 3,
or it is exactly 2 and p was in the input LiveSet; every other coordinate is
absent from the result. -/
theorem next_generation_rule (g : Grid) (live : Finset Position) (p : Position)
    (hw : 0 < g.width) (hh : 0 < g.height) :
    p ∈ g.next_generation live ↔
      0 < neighborCount g live p ∧
        (neighborCount g live p = 3 ∨
          (neighborCount g live p = 2 ∧ p ∈ live)) := by
  rw [mem_next_generation_iff]
  tauto

/-- Witness for C1 on a concrete blinker: the cell above its center is born. -/
theorem next_generation_rule_witness :
    (0 : Int) < 5 ∧ (0 : Int) < 5 ∧
      (((2 : Int), (0 : Int)) ∈
          Grid.next_generation ⟨5, 5, false⟩
            {((1 : Int), (1 : Int)), ((2 : Int), (1 : Int)),
              ((3 : Int), (1 : Int))} ↔
        0 < neighborCount ⟨5, 5, false⟩
            {((1 : Int), (1 : Int)), ((2 : Int), (1 : Int)),
              ((3 : Int), (1 : Int))} ((2 : Int), (0 : Int)) ∧
          (neighborCount ⟨5, 5, false⟩
              {((1 : Int), (1 : Int)), ((2 : Int), (1 : Int)),
                ((3 : Int), (1 : Int))} ((2 : Int), (0 : Int)) = 3 ∨
            (neighborCount ⟨5, 5, false⟩
                {((1 : Int), (1 : Int)), ((2 : Int), (1 : Int)),
                  ((3 : Int), (1 : Int))} ((2 : Int), (0 : Int)) = 2 ∧
              ((2 : Int), (0 : Int)) ∈
                ({((1 : Int), (1 : Int)), ((2 : Int), (1 : Int)),
                  ((3 : Int), (1 : Int))} : Finset Position)))) :=
  ⟨by decide, by decide,
    next_generation_rule ⟨5, 5, false⟩
      {((1 : Int), (1 : Int)), ((2 : Int), (1 : Int)), ((3 : Int), (1 : Int))}
      ((2 : Int), (0 : Int)) (by decide) (by decide)⟩

/-- C3: the wrap function lands in [0,width) x [0,height) for all integer
inputs (negative remainders corrected by adding the modulus), and it fixes
already-canonical coordinates. -/
theorem wrap_canonicalizes (g : Grid) (x y : Int)
    (hw : 0 < g.width) (hh : 0 < g.height) :
    (0 ≤ (g.wrap x y).1 ∧ (g.wrap x y).1 < g.width ∧
      0 ≤ (g.wrap x y).2 ∧ (g.wrap x y).2 < g.height) ∧
    (0 ≤ x → x < g.width → 0 ≤ y → y < g.height → g.wrap x y = (x, y)) :=
  ⟨wrap_mem_range g x y hw hh,
    fun hx0 hx1 hy0 hy1 => wrap_eq_self_of_in_bounds g x y hx0 hx1 hy0 hy1⟩

/-- Witness for C3 at a negative coordinate on a 5 x 4 grid. -/
theorem wrap_canonicalizes_witness :
    (0 : Int) < 5 ∧ (0 : Int) < 4 ∧
      ((0 ≤ ((⟨5, 4, true⟩ : Grid).wrap (-7) 6).1 ∧
          ((⟨5, 4, true⟩ : Grid).wrap (-7) 6).1 < 5 ∧
          0 ≤ ((⟨5, 4, true⟩ : Grid).wrap (-7) 6).2 ∧
          ((⟨5, 4, true⟩ : Grid).wrap (-7) 6).2 < 4) ∧
        (0 ≤ (-7 : Int) → (-7 : Int) < 5 → 0 ≤ (6 : Int) → (6 : Int) < 4 →
          (⟨5, 4, true⟩ : Grid).wrap (-7) 6 = (-7, 6))) :=
  ⟨by decide, by decide,
    wrap_canonicalizes ⟨5, 4, true⟩ (-7) 6 (by decide) (by decide)⟩

/-- C2: stamping inserts each anchored offset through the same gate as
manual insertion: add_cell_to_pattern equals add_cell; the stamped set is
the old cells plus the admitted anchored offsets (clipping is cell-by-cell,
never wholesale); reading back, under wrap the wrapped coordinate of every offset
is alive, and without wrap the coordinate of an offset is alive iff
it lies in bounds. -/
theorem stamp_admission (offs : List (Int × Int)) (g : Grid)
    (x y a b : Int) (cells : Finset Position) :
    (add_cell_to_pattern g.width g.height g.wrap_world a b cells =
      add_cell g a b cells) ∧
    (∀ p, p ∈ stampList offs g.width g.height g.wrap_world x y cells ↔
      p ∈ cells ∨ ∃ o ∈ offs,
        gate g.width g.height g.wrap_world (x + o.1) (y + o.2) = some p) ∧
    (g.wrap_world = true → ∀ o ∈ offs,
      g.wrap (x + o.1) (y + o.2) ∈
        stampList offs g.width g.height g.wrap_world x y cells) ∧
    (g.wrap_world = false → InBounds g cells → ∀ o ∈ offs,
      ((x + o.1, y + o.2) ∈
          stampList offs g.width g.height g.wrap_world x y cells ↔
        g.in_bounds (x + o.1) (y + o.2) = true)) := by
  refine ⟨add_cell_to_pattern_eq_add_cell g a b cells,
    mem_stampList offs g.width g.height g.wrap_world x y cells, ?_, ?_⟩
  · intro hww o ho
    refine (mem_stampList _ _ _ _ _ _ _ _).mpr (Or.inr ⟨o, ho, ?_⟩)
    rw [hww, gate_true, wrap_same]
  · intro hww hinv o ho
    constructor
    · intro hmem
      rcases (mem_stampList _ _ _ _ _ _ _ _).mp hmem with hc | ⟨o2, _, hadm⟩
      · have hb := hinv _ hc
        exact (in_bounds_iff g _ _).mpr hb
      · rw [hww, gate_false] at hadm
        split at hadm
        · next hb =>
          have heq : ((x + o2.1, y + o2.2) : Position) = (x + o.1, y + o.2) := by
            simpa using hadm
          rw [in_bounds_same] at hb
          have h1 := congrArg Prod.fst heq
          have h2 := congrArg Prod.snd heq
          simp only at h1 h2
          rw [← h1, ← h2]
          exact hb
        · cases hadm
    · intro hb
      refine (mem_stampList _ _ _ _ _ _ _ _).mpr (Or.inr ⟨o, ho, ?_⟩)
      rw [hww, gate_false, in_bounds_same, hb]
      simp

/-- Witness for C2: a glider stamped at the origin anchor of a 10 x 10
non-wrap grid. -/
theorem stamp_admission_witness :
    (add_cell_to_pattern (10 : Int) (10 : Int) false 3 4 ∅ =
      add_cell ⟨10, 10, false⟩ 3 4 ∅) ∧
    (∀ p, p ∈ stampList glider_offsets (10 : Int) (10 : Int) false 0 0 ∅ ↔
      p ∈ (∅ : Finset Position) ∨ ∃ o ∈ glider_offsets,
        gate (10 : Int) (10 : Int) false (0 + o.1) (0 + o.2) = some p) ∧
    ((false : Bool) = true → ∀ o ∈ glider_offsets,
      (⟨10, 10, false⟩ : Grid).wrap (0 + o.1) (0 + o.2) ∈
        stampList glider_offsets (10 : Int) (10 : Int) false 0 0 ∅) ∧
    ((false : Bool) = false → InBounds ⟨10, 10, false⟩ (∅ : Finset Position) →
      ∀ o ∈ glider_offsets,
      ((0 + o.1, 0 + o.2) ∈
          stampList glider_offsets (10 : Int) (10 : Int) false 0 0 ∅ ↔
        (⟨10, 10, false⟩ : Grid).in_bounds (0 + o.1) (0 + o.2) = true)) :=
  stamp_admission glider_offsets ⟨10, 10, false⟩ 0 0 3 4 ∅

/-- C9: toggling the same coordinate twice restores the live set exactly:
not-admitted coordinates give two no-ops, admitted ones flip membership
twice. -/
theorem toggle_toggle_id (g : Grid) (x y : Int) (live : Finset Position) :
    toggle_cell g x y (toggle_cell g x y live) = live := by
  unfold toggle_cell
  cases hww : g.wrap_world with
  | true =>
    simp only [hww, Bool.true_or, Bool.not_true, Bool.false_eq_true, reduceIte]
    by_cases hmem : g.wrap x y ∈ live
    · rw [if_pos hmem, if_neg (Finset.not_mem_erase _ _)]
      exact Finset.insert_erase hmem
    · rw [if_neg hmem, if_pos (Finset.mem_insert_self _ _)]
      exact Finset.erase_insert hmem
  | false =>
    simp only [hww, Bool.false_or, Bool.false_eq_true, reduceIte]
    cases hb : g.in_bounds x y with
    | false => simp [hb]
    | true =>
      simp only [hb, Bool.not_true, Bool.false_eq_true, reduceIte]
      by_cases hmem : ((x, y) : Position) ∈ live
      · rw [if_pos hmem, if_neg (Finset.not_mem_erase _ _)]
        exact Finset.insert_erase hmem
      · rw [if_neg hmem, if_pos (Finset.mem_insert_self _ _)]
        exact Finset.erase_insert hmem

/-- C10: every index at or beyond 10 falls back to the Glider pattern,
identical to the lookup at index 0; out-of-range lookups never fail. -/
theorem pattern_registry_fallback (index : Nat) (h : 10 ≤ index) :
    get_pattern_by_index index = PatternKind.glider ∧
    get_pattern_by_index index = get_pattern_by_index 0 := by
  obtain ⟨k, rfl⟩ : ∃ k, index = k + 10 := ⟨index - 10, by omega⟩
  exact ⟨rfl, rfl⟩

/-- Witness for C10 at index 42. -/
theorem pattern_registry_fallback_witness :
    10 ≤ 42 ∧ (get_pattern_by_index 42 = PatternKind.glider ∧
      get_pattern_by_index 42 = get_pattern_by_index 0) :=
  ⟨by decide, pattern_registry_fallback 42 (by decide)⟩

/-- C6: a 2x2 block stamped at an interior anchor (all four cells and their
one-cell margin strictly inside the board) is a fixed point of advance. -/
theorem block_fixed_point (g : Grid) (x y : Int)
    (hx1 : 1 ≤ x) (hx2 : x + 2 < g.width)
    (hy1 : 1 ≤ y) (hy2 : y + 2 < g.height) :
    g.next_generation
        (stampList block_offsets g.width g.height g.wrap_world x y ∅) =
      stampList block_offsets g.width g.height g.wrap_world x y ∅ := by
  rw [stamp_block_eq g x y hx1 hx2 hy1 hy2]
  have hB : ({(x, y), (x + 1, y), (x, y + 1), (x + 1, y + 1)} :
        Finset Position) =
      ({((1 : Int), (1 : Int)), (2, 1), (1, 2), (2, 2)} :
        Finset Position).image (translate (x - 1, y - 1)) := by
    ext p
    simp only [Finset.mem_insert, Finset.mem_singleton, Finset.mem_image,
      translate, Prod.ext_iff]
    constructor
    · rintro (⟨h1, h2⟩ | ⟨h1, h2⟩ | ⟨h1, h2⟩ | ⟨h1, h2⟩)
      · exact ⟨(1, 1), Or.inl ⟨rfl, rfl⟩, by omega⟩
      · exact ⟨(2, 1), Or.inr (Or.inl ⟨rfl, rfl⟩), by omega⟩
      · exact ⟨(1, 2), Or.inr (Or.inr (Or.inl ⟨rfl, rfl⟩)), by omega⟩
      · exact ⟨(2, 2), Or.inr (Or.inr (Or.inr ⟨rfl, rfl⟩)), by omega⟩
    · rintro ⟨a, (⟨h1, h2⟩ | ⟨h1, h2⟩ | ⟨h1, h2⟩ | ⟨h1, h2⟩), h3, h4⟩ <;>
        [exact Or.inl (by omega);
         exact Or.inr (Or.inl (by omega));
         exact Or.inr (Or.inr (Or.inl (by omega)));
         exact Or.inr (Or.inr (Or.inr (by omega)))]
  have hmargin : ∀ c ∈ ({(x, y), (x + 1, y), (x, y + 1), (x + 1, y + 1)} :
      Finset Position), 1 ≤ c.1 ∧ c.1 + 1 < g.width ∧
      1 ≤ c.2 ∧ c.2 + 1 < g.height := by
    intro c hc
    simp only [Finset.mem_insert, Finset.mem_singleton] at hc
    rcases hc with rfl | rfl | rfl | rfl <;>
      exact ⟨by omega, by omega, by omega, by omega⟩
  have hfix : nextP ({((1 : Int), (1 : Int)), (2, 1), (1, 2), (2, 2)} :
      Finset Position) =
      ({((1 : Int), (1 : Int)), (2, 1), (1, 2), (2, 2)} : Finset Position) := by
    decide
  rw [next_generation_eq_nextP g _ hmargin, hB, nextP_translate, hfix]

/-- Witness for C6: the block anchored at (2,2) inside a 6 x 6 board. -/
theorem block_fixed_point_witness :
    (1 : Int) ≤ 2 ∧ (2 : Int) + 2 < 6 ∧ (1 : Int) ≤ 2 ∧ (2 : Int) + 2 < 6 ∧
    (⟨6, 6, false⟩ : Grid).next_generation
        (stampList block_offsets (6 : Int) (6 : Int) false 2 2 ∅) =
      stampList block_offsets (6 : Int) (6 : Int) false 2 2 ∅ :=
  ⟨by decide, by decide, by decide, by decide,
    block_fixed_point ⟨6, 6, false⟩ 2 2 (by decide) (by decide) (by decide)
      (by decide)⟩

/-- C4: every engine operation keeps the live set inside
[0,width) x [0,height): manual insertion, toggling, clearing, stamping and
the generation transition. -/
theorem ops_preserve_invariant (g : Grid) (live : Finset Position)
    (x y : Int) (offs : List (Int × Int))
    (hw : 0 < g.width) (hh : 0 < g.height) (hinv : InBounds g live) :
    InBounds g (add_cell g x y live) ∧
    InBounds g (toggle_cell g x y live) ∧
    InBounds g (∅ : Finset Position) ∧
    InBounds g (stampList offs g.width g.height g.wrap_world x y live) ∧
    InBounds g (g.next_generation live) :=
  ⟨inBounds_add_cell g x y live hw hh hinv,
   inBounds_toggle_cell g x y live hw hh hinv,
   fun p hp => absurd hp (Finset.not_mem_empty p),
   inBounds_stampList offs g x y live hw hh hinv,
   inBounds_next_generation g live hw hh⟩

/-- Witness for C4 on a 4 x 4 wrap grid with an out-of-range insertion. -/
theorem ops_preserve_invariant_witness :
    (0 : Int) < 4 ∧ (0 : Int) < 4 ∧
    InBounds ⟨4, 4, true⟩ (∅ : Finset Position) ∧
    (InBounds ⟨4, 4, true⟩ (add_cell ⟨4, 4, true⟩ (-3) 9 ∅) ∧
     InBounds ⟨4, 4, true⟩ (toggle_cell ⟨4, 4, true⟩ (-3) 9 ∅) ∧
     InBounds ⟨4, 4, true⟩ (∅ : Finset Position) ∧
     InBounds ⟨4, 4, true⟩
       (stampList glider_offsets (4 : Int) (4 : Int) true (-3) 9 ∅) ∧
     InBounds ⟨4, 4, true⟩ ((⟨4, 4, true⟩ : Grid).next_generation ∅)) :=
  ⟨by decide, by decide, fun p hp => absurd hp (Finset.not_mem_empty p),
    ops_preserve_invariant ⟨4, 4, true⟩ ∅ (-3) 9 glider_offsets
      (by decide) (by decide)
      (fun p hp => absurd hp (Finset.not_mem_empty p))⟩

/-- C7: advance is a function of the live set alone: two enumerations of
the same LiveSet in different hash orders produce the same next set. -/
theorem advance_deterministic (g : Grid) (l1 l2 : List Position)
    (h1 : l1.Nodup) (h2 : l2.Nodup) (hmem : ∀ p, p ∈ l1 ↔ p ∈ l2) :
    next_generationL g l1 = next_generationL g l2 := by
  rw [next_generationL_eq g l1 h1, next_generationL_eq g l2 h2]
  have hset : l1.toFinset = l2.toFinset := by
    ext p
    simp only [List.mem_toFinset]
    exact hmem p
  rw [hset]

/-- Witness for C7: two orderings of the same two-cell set. -/
theorem advance_deterministic_witness :
    ([((1 : Int), (1 : Int)), (2, 2)] : List Position).Nodup ∧
    ([((2 : Int), (2 : Int)), (1, 1)] : List Position).Nodup ∧
    (∀ p, p ∈ ([((1 : Int), (1 : Int)), (2, 2)] : List Position) ↔
      p ∈ ([((2 : Int), (2 : Int)), (1, 1)] : List Position)) ∧
    next_generationL ⟨5, 5, false⟩ [((1 : Int), (1 : Int)), (2, 2)] =
      next_generationL ⟨5, 5, false⟩ [((2 : Int), (2 : Int)), (1, 1)] :=
  ⟨by decide, by decide,
    by intro p; simp only [List.mem_cons, List.not_mem_nil, or_false]; tauto,
    advance_deterministic ⟨5, 5, false⟩ _ _ (by decide) (by decide)
      (by intro p; simp only [List.mem_cons, List.not_mem_nil, or_false];
          tauto)⟩

/-- One row of random_fill changes at most the live set. -/
lemma foldl_row_live (d : Int → Int → Bool) (yv : Int) (l : List Int)
    (s : GameOfLife) :
    ∃ L, l.foldl (fun s2 xv => if d xv yv then s2.add_cell xv yv else s2) s =
      { s with live := L } := by
  induction l generalizing s with
  | nil => exact ⟨s.live, rfl⟩
  | cons a t ih =>
    rw [List.foldl_cons]
    by_cases hd : d a yv
    · rw [if_pos hd]
      obtain ⟨L, hL⟩ := ih (s.add_cell a yv)
      exact ⟨L, hL⟩
    · rw [if_neg hd]
      exact ih s

/-- random_fill changes at most the live set. -/
lemma random_fill_live (s : GameOfLife) (d : Int → Int → Bool) :
    ∃ L, s.random_fill d = { s with live := L } := by
  unfold GameOfLife.random_fill
  generalize intRange s.grid.height = ys
  induction ys generalizing s with
  | nil => exact ⟨s.live, rfl⟩
  | cons a t ih =>
    rw [List.foldl_cons]
    obtain ⟨L1, h1⟩ := foldl_row_live d a (intRange s.grid.width) s
    rw [h1]
    obtain ⟨L2, h2⟩ := ih { s with live := L1 }
    exact ⟨L2, h2⟩

/-- C8: the generation counter is incremented by exactly one by advance and
by no other operation, and clear empties the live set and resets the
counter to zero while leaving every other field unchanged. -/
theorem generation_counter_spec (s : GameOfLife) (x y : Int)
    (offs : List (Int × Int)) (d : Int → Int → Bool) :
    s.next_generation.generation = s.generation + 1 ∧
    (s.add_cell x y).generation = s.generation ∧
    (s.toggle_cell x y).generation = s.generation ∧
    (s.apply_pattern offs x y).generation = s.generation ∧
    s.cycle_theme.generation = s.generation ∧
    (s.random_fill d).generation = s.generation ∧
    s.clear.live = ∅ ∧ s.clear.generation = 0 ∧
    s.clear.grid = s.grid ∧ s.clear.cell = s.cell ∧
    s.clear.show_grid = s.show_grid ∧ s.clear.theme = s.theme := by
  obtain ⟨L, hL⟩ := random_fill_live s d
  exact ⟨rfl, rfl, rfl, rfl, rfl, by rw [hL], rfl, rfl, rfl, rfl, rfl, rfl⟩

/-- When the live set satisfies the bounds invariant on an i32-sized board,
no neighbor addition overflows and the checked transition succeeds. -/
lemma next_generation_checked_of_inBounds (g : Grid) (live : Finset Position)
    (hwle : g.width ≤ I32_MAX) (hhle : g.height ≤ I32_MAX)
    (hinv : InBounds g live) :
    next_generation_checked g live = some (g.next_generation live) := by
  have hcond : ∀ c ∈ live, ∀ o ∈ NEIGHBOR_OFFSETS,
      (g.step_checked c o).isSome = true := by
    intro c hc o ho
    obtain ⟨h1, h2, h3, h4⟩ := hinv c hc
    have hw2 : g.width ≤ 2147483647 := hwle
    have hh2 : g.height ≤ 2147483647 := hhle
    have ho1 : -1 ≤ o.1 ∧ o.1 ≤ 1 ∧ -1 ≤ o.2 ∧ o.2 ≤ 1 := by
      fin_cases ho <;> exact ⟨by norm_num, by norm_num, by norm_num, by norm_num⟩
    have hx : checked_add c.1 o.1 = some (c.1 + o.1) := by
      unfold checked_add
      exact if_pos ⟨by simp only [I32_MIN]; omega, by simp only [I32_MAX]; omega⟩
    have hy : checked_add c.2 o.2 = some (c.2 + o.2) := by
      unfold checked_add
      exact if_pos ⟨by simp only [I32_MIN]; omega, by simp only [I32_MAX]; omega⟩
    unfold Grid.step_checked
    rw [hx, hy]
    rfl
  unfold next_generation_checked
  rw [if_pos hcond]

/-- C5 at the failing input: a live cell at x = i32::MAX makes the neighbor
addition cell.x() + 1 overflow i32, so the checked transition is the
arithmetic error rather than a dropped candidate. -/
theorem advance_overflow_hits_error :
    next_generation_checked ⟨10, 10, false⟩
      {((2147483647 : Int), (0 : Int))} = none := by
  decide

end Gol
